import Mathlib

/-!
Shallow embedding of the reservation core of the hotel-booking backend
(controllers `booking.controller.js` and `roomUnit.controleer.js`).

Dates are modelled as natural numbers (day indices, midnight-normalised as in
the source), record identifiers as naturals, stock counters as integers
(Prisma increment/decrement is unguarded integer arithmetic), and money as
rationals.  Each controller is embedded as a pure function from a database
state `DB` to `Except ApiError` of its result together with the updated
state; a Prisma `$transaction` whose callback throws commits nothing, which
the `Except` error branch models by returning no state.  HTTP plumbing
(request parsing, missing-field 400s, date-string parsing, response
serialisation) and fields irrelevant to the accounting logic
(`specialRequests`, names, reasons) are elided.
-/

deriving instance DecidableEq for Except

namespace HotelBooking

/-- Booking lifecycle status, from the status enum used in
`booking.controller.js`. -/
inductive BStatus where
  | pending
  | confirmed
  | cancelled
  | checkedIn
  | checkedOut
deriving DecidableEq

/-- Payment status; `confirmBooking` requires SUCCESS. -/
inductive PayStatus where
  | success
  | pending
  | failed
deriving DecidableEq

/-- Room unit housekeeping status. -/
inductive UStatus where
  | available
  | dirty
  | maintenance
  | occupied
deriving DecidableEq

/-- One `roomInventory` row: per room type, per date stock counters. -/
structure InvRow where
  roomTypeId : Nat
  date : Nat
  availableCount : Int
  totalStock : Int
deriving DecidableEq

/-- One `roomType` row (fields used by the core). -/
structure RoomTypeRec where
  id : Nat
  basePrice : ℚ
  deletedAt : Option Nat
deriving DecidableEq

/-- One `dailyRate` row: an override price for one date. -/
structure DailyRateRec where
  roomTypeId : Nat
  date : Nat
  price : ℚ
deriving DecidableEq

/-- One `booking` row (fields used by the core). -/
structure BookingRec where
  id : Nat
  guestId : Nat
  roomTypeId : Nat
  checkIn : Nat
  checkOut : Nat
  totalPrice : ℚ
  status : BStatus
  roomUnitId : Option Nat
deriving DecidableEq

/-- One `payment` row, related one-to-one to a booking. -/
structure PaymentRec where
  bookingId : Nat
  status : PayStatus
deriving DecidableEq

/-- One `roomUnit` row. -/
structure RoomUnitRec where
  id : Nat
  roomTypeId : Nat
  status : UStatus
deriving DecidableEq

/-- The persistent state read and written by the controllers. -/
structure DB where
  roomTypes : List RoomTypeRec
  inventory : List InvRow
  dailyRates : List DailyRateRec
  bookings : List BookingRec
  payments : List PaymentRec
  roomUnits : List RoomUnitRec
  guests : List Nat
deriving DecidableEq

/-- `ApiError(statusCode, message)` as thrown by every controller. -/
structure ApiError where
  statusCode : Nat
  message : String
deriving DecidableEq

/-- The Prisma range filter `{roomTypeId, date: {gte: s, lt: e}}`. -/
def invInRange (rt s e : Nat) (r : InvRow) : Bool :=
  decide (r.roomTypeId = rt ∧ s ≤ r.date ∧ r.date < e)

/-- The overlapping-booking filter of `checkRoomAvailability`:
`{roomTypeId, checkIn: {lt: e}, checkOut: {gt: s}, status in [CONFIRMED, CHECKED_IN]}`. -/
def bookingOverlaps (rt s e : Nat) (b : BookingRec) : Bool :=
  decide (b.roomTypeId = rt ∧ b.checkIn < e ∧ s < b.checkOut ∧
    (b.status = .confirmed ∨ b.status = .checkedIn))

/-- `Math.min(...)` over the mapped list; the empty case is dead code behind
the emptiness guards in the source. -/
def listMinI : List Int → Int
  | [] => 0
  | x :: xs => xs.foldl min x

/-- The inventory rows the range queries return. -/
def invRange (db : DB) (rt s e : Nat) : List InvRow :=
  db.inventory.filter (invInRange rt s e)

/-- Apply `f` to the rows matched by the range filter, leave others alone:
the update loop of each range transaction. -/
def applyInRange (rt s e : Nat) (f : InvRow → InvRow) (r : InvRow) : InvRow :=
  if invInRange rt s e r then f r else r

/-- The CONFIRMED or CHECKED_IN bookings overlapping the requested range. -/
def overlapCount (db : DB) (rt s e : Nat) : Nat :=
  (db.bookings.filter (bookingOverlaps rt s e)).length

/-- The minimum `availableCount` over the loaded range rows. -/
def minAvail (db : DB) (rt s e : Nat) : Int :=
  listMinI ((invRange db rt s e).map (·.availableCount))

/-- `checkRoomAvailability` (booking.controller.js, lines 116 to 150).
Returns `minRoomsAvailable`. -/
def checkRoomAvailability (db : DB) (rt s e : Nat) : Except ApiError Int :=
  if (invRange db rt s e).isEmpty then
    .error ⟨404, "No inventory data for selected dates"⟩
  else if minAvail db rt s e ≤ (overlapCount db rt s e : Int) then
    .error ⟨409, "Room not available for selected dates"⟩
  else .ok (minAvail db rt s e - overlapCount db rt s e)

/-- `validateBookingDates` (lines 27 to 55) on midnight-normalised day
numbers; `Math.ceil((end - start)/day)` is exactly `e - s` here. -/
def validateBookingDates (today s e : Nat) : Except ApiError (Nat × Nat) :=
  if s < today then .error ⟨400, "Check-in date cannot be in the past"⟩
  else if e ≤ s then .error ⟨400, "Check-out date must be after check-in date"⟩
  else if 10 < e - s then .error ⟨400, "Booking cannot exceed 10 nights"⟩
  else .ok (s, e)

/-- The JS `Map` built from the daily-rate list: later entries shadow
earlier ones. -/
def buildRateMap (rates : List DailyRateRec) : Nat → Option ℚ :=
  rates.foldl (fun m r => fun d => if d = r.date then some r.price else m d)
    (fun _ => none)

/-- The dates the price loop iterates over: `s, s+1, ..., e-1`. -/
def nightsList (s e : Nat) : List Nat :=
  (List.range (e - s)).map (fun k => s + k)

/-- `parseFloat(x.toFixed(2))` for the nonnegative totals at hand: round to
cents, half up. -/
def round2 (q : ℚ) : ℚ :=
  (⌊q * 100 + 1 / 2⌋ : ℚ) / 100

/-- `prisma.roomType.findFirst({where: {id, deletedAt: null}})`. -/
def findRoomType (db : DB) (rt : Nat) : Option RoomTypeRec :=
  db.roomTypes.find? (fun t => decide (t.id = rt ∧ t.deletedAt = none))

/-- The `dailyRate` rows the range query of `calculateBookingPrice`
returns. -/
def ratesInRange (db : DB) (rt s e : Nat) : List DailyRateRec :=
  db.dailyRates.filter (fun r => decide (r.roomTypeId = rt ∧ s ≤ r.date ∧ r.date < e))

/-- `calculateBookingPrice` (lines 58 to 113): override price if the rate
map has the date, else the base price, accumulated left to right, then
`toFixed(2)`. -/
def calculateBookingPrice (db : DB) (rt s e : Nat) : Except ApiError ℚ :=
  match findRoomType db rt with
  | none => .error ⟨404, "Room type not found"⟩
  | some roomType =>
    .ok (round2 ((nightsList s e).foldl
      (fun acc d =>
        acc + (buildRateMap (ratesInRange db rt s e) d).getD roomType.basePrice) 0))

/-- Look a booking up by id (`prisma.booking.findUnique({where: {id}})`). -/
def bookingById (db : DB) (i : Nat) : Option BookingRec :=
  db.bookings.find? (fun b => b.id == i)

/-- `prisma.booking.update({where: {id}, data})` on the booking list. -/
def updateById (l : List BookingRec) (i : Nat) (g : BookingRec → BookingRec) :
    List BookingRec :=
  l.map (fun b => if b.id == i then g b else b)

/-- `data: {status}` of a booking update. -/
def setStatus (st : BStatus) (x : BookingRec) : BookingRec :=
  { x with status := st }

/-- `data: {status: CHECKED_IN, roomUnitId}` of a check-in with unit
assignment. -/
def assignUnit (uid : Nat) (x : BookingRec) : BookingRec :=
  { x with status := .checkedIn, roomUnitId := some uid }

/-- `availableCount: {decrement: q}` on one row. -/
def decBy (q : Int) (r : InvRow) : InvRow :=
  { r with availableCount := r.availableCount - q }

/-- The uncapped `availableCount: {increment: 1}` of `cancelBooking`. -/
def incOne (r : InvRow) : InvRow :=
  { r with availableCount := r.availableCount + 1 }

/-- The capped raise of `incrementInventory`:
`availableCount := min(availableCount + q, totalStock)`. -/
def incCapped (q : Int) (r : InvRow) : InvRow :=
  { r with availableCount := min (r.availableCount + q) r.totalStock }

/-- `createBooking` (lines 153 to 234): guest check, date validation, room
type check, availability gate, price, then a transaction that decrements
each existing inventory row in the range by one and inserts the PENDING
booking.  The generated reference is modelled separately
(`genRefAttempts`); `newId` stands for the created row id. -/
def createBooking (db : DB) (today guestId rt checkIn checkOut newId : Nat) :
    Except ApiError (DB × BookingRec) :=
  if guestId ∈ db.guests then
    match validateBookingDates today checkIn checkOut with
    | .error er => .error er
    | .ok (s, e) =>
      match findRoomType db rt with
      | none => .error ⟨404, "Room type not found or deleted"⟩
      | some _ =>
        match checkRoomAvailability db rt s e with
        | .error er => .error er
        | .ok _ =>
          match calculateBookingPrice db rt s e with
          | .error er => .error er
          | .ok price =>
            let newBooking : BookingRec :=
              ⟨newId, guestId, rt, s, e, price, .pending, none⟩
            .ok ({ db with
                    inventory := db.inventory.map (applyInRange rt s e (decBy 1)),
                    bookings := db.bookings ++ [newBooking] },
                 newBooking)
  else .error ⟨404, "Guest profile not found"⟩

/-- `cancelBooking` (lines 354 to 415): terminal-status guard, date guard,
then a transaction incrementing each existing row of the original range by
one (with no cap) and setting the status to CANCELLED. -/
def cancelBooking (db : DB) (today bid : Nat) : Except ApiError (DB × BookingRec) :=
  match bookingById db bid with
  | none => .error ⟨404, "Booking not found"⟩
  | some b =>
    if b.status = .checkedOut ∨ b.status = .cancelled then
      .error ⟨400, "Cannot cancel this booking"⟩
    else if b.checkIn ≤ today then
      .error ⟨400, "Cannot cancel booking after check-in has started"⟩
    else
      .ok ({ db with
              inventory := db.inventory.map
                (applyInRange b.roomTypeId b.checkIn b.checkOut incOne),
              bookings := updateById db.bookings bid (setStatus .cancelled) },
           setStatus .cancelled b)

/-- `confirmBooking` (lines 418 to 458): requires PENDING status and a
related payment with status SUCCESS, then sets CONFIRMED. -/
def confirmBooking (db : DB) (bid : Nat) : Except ApiError (DB × BookingRec) :=
  match bookingById db bid with
  | none => .error ⟨404, "Booking not found"⟩
  | some b =>
    if b.status = .pending then
      match db.payments.find? (fun p => p.bookingId == b.id) with
      | none => .error ⟨400, "Payment must be successful before confirming booking"⟩
      | some p =>
        if p.status = .success then
          .ok ({ db with
                 bookings := updateById db.bookings bid (setStatus .confirmed) },
               setStatus .confirmed b)
        else .error ⟨400, "Payment must be successful before confirming booking"⟩
    else .error ⟨400, "Booking is already in another status"⟩

/-- `checkInBooking` (lines 461 to 528): requires CONFIRMED status and
`checkIn ≤ today`; an optional unit must match the room type and be
AVAILABLE, and becomes OCCUPIED. -/
def checkInBooking (db : DB) (today bid : Nat) (unitId : Option Nat) :
    Except ApiError (DB × BookingRec) :=
  match bookingById db bid with
  | none => .error ⟨404, "Booking not found"⟩
  | some b =>
    if b.status = .confirmed then
      if today < b.checkIn then
        .error ⟨400, "Cannot check in before check-in date"⟩
      else
        match unitId with
        | none =>
          .ok ({ db with
                 bookings := updateById db.bookings bid (setStatus .checkedIn) },
               setStatus .checkedIn b)
        | some uid =>
          match db.roomUnits.find? (fun u =>
              decide (u.id = uid ∧ u.roomTypeId = b.roomTypeId ∧ u.status = .available)) with
          | none => .error ⟨404, "Room unit not available for assignment"⟩
          | some _ =>
            .ok ({ db with
                    roomUnits := db.roomUnits.map
                      (fun u => if u.id == uid then { u with status := .occupied } else u),
                    bookings := updateById db.bookings bid (assignUnit uid) },
                 assignUnit uid b)
    else .error ⟨400, "Cannot check in this booking"⟩

/-- `checkOutBooking` (lines 531 to 576): requires CHECKED_IN; the assigned
unit, if any, becomes DIRTY; the status becomes CHECKED_OUT.  No inventory
change. -/
def checkOutBooking (db : DB) (bid : Nat) : Except ApiError (DB × BookingRec) :=
  match bookingById db bid with
  | none => .error ⟨404, "Booking not found"⟩
  | some b =>
    if b.status = .checkedIn then
      let units := match b.roomUnitId with
        | some uid => db.roomUnits.map
            (fun u => if u.id == uid then { u with status := .dirty } else u)
        | none => db.roomUnits
      .ok ({ db with
              roomUnits := units,
              bookings := updateById db.bookings bid (setStatus .checkedOut) },
           setStatus .checkedOut b)
    else .error ⟨400, "Booking cannot be checked out from this status"⟩

/-- `updateBooking` (lines 658 to 719): only PENDING bookings; when dates or
room type change it validates, re-checks availability, re-prices, and
updates the booking row.  It touches no inventory row. -/
def updateBooking (db : DB) (today bid : Nat) (ci co nrt : Option Nat) :
    Except ApiError (DB × BookingRec) :=
  match bookingById db bid with
  | none => .error ⟨404, "Booking not found"⟩
  | some b =>
    if b.status = .pending then
      if ci.isSome ∨ co.isSome ∨ nrt.isSome then
        match validateBookingDates today (ci.getD b.checkIn) (co.getD b.checkOut) with
        | .error er => .error er
        | .ok (s, e) =>
          match checkRoomAvailability db (nrt.getD b.roomTypeId) s e with
          | .error er => .error er
          | .ok _ =>
            match calculateBookingPrice db (nrt.getD b.roomTypeId) s e with
            | .error er => .error er
            | .ok price =>
              let g := fun x : BookingRec =>
                { x with checkIn := s, checkOut := e,
                         roomTypeId := nrt.getD b.roomTypeId, totalPrice := price }
              .ok ({ db with bookings := updateById db.bookings bid g }, g b)
      else .ok (db, b)
    else .error ⟨400, "Can only update pending bookings"⟩

/-- `decrementInventory` (roomUnit.controleer.js, lines 601 to 664): inside
one transaction, load the range rows, 404 if none exist, 400 if any row has
`availableCount < quantity`, else decrement every loaded row by the
quantity. -/
def decrementInventory (db : DB) (rt s e : Nat) (q : Int) : Except ApiError DB :=
  if q < 1 then .error ⟨400, "Quantity must be at least 1"⟩
  else if (invRange db rt s e).isEmpty then
    .error ⟨404, "No inventory found for date range"⟩
  else if ((invRange db rt s e).filter (fun r => decide (r.availableCount < q))).isEmpty then
    .ok { db with inventory := db.inventory.map (applyInRange rt s e (decBy q)) }
  else .error ⟨400, "Insufficient inventory on dates"⟩

/-- `incrementInventory` (lines 667 to 726): inside one transaction, load
the range rows, 404 if none exist, else raise each loaded row to
`min(availableCount + quantity, totalStock)`. -/
def incrementInventory (db : DB) (rt s e : Nat) (q : Int) : Except ApiError DB :=
  if q < 1 then .error ⟨400, "Quantity must be at least 1"⟩
  else if (invRange db rt s e).isEmpty then
    .error ⟨404, "No inventory found for date range"⟩
  else
    .ok { db with inventory := db.inventory.map (applyInRange rt s e (incCapped q)) }

/-- `updateInventory` (lines 545 to 598): administrative edit of one row,
validating the would-be `availableCount ≤ totalStock` against the merged
values before writing. -/
def updateInventory (db : DB) (rt d : Nat) (newAvail newTotal : Option Int) :
    Except ApiError DB :=
  if newAvail.elim false (fun a => decide (a < 0)) then
    .error ⟨400, "Available count cannot be negative"⟩
  else if newTotal.elim false (fun t => decide (t ≤ 0)) then
    .error ⟨400, "Total stock must be greater than 0"⟩
  else
    match db.inventory.find? (fun r => decide (r.roomTypeId = rt ∧ r.date = d)) with
    | none => .error ⟨404, "Room inventory not found for the specified date"⟩
    | some r0 =>
      if newTotal.getD r0.totalStock < newAvail.getD r0.availableCount then
        .error ⟨400, "Available count cannot exceed total stock"⟩
      else
        .ok { db with inventory := db.inventory.map (fun r =>
                if r.roomTypeId = rt ∧ r.date = d then
                  { r with availableCount := newAvail.getD r.availableCount,
                           totalStock := newTotal.getD r.totalStock }
                else r) }

/-- `generateBookingReference` (booking.controller.js, lines 8 to 24),
abstracted over its randomness: `collides k` tells whether the reference
generated on attempt `k` already exists.  The source recurses on every
collision with no attempt counter; `fuel` bounds the call depth of the
model, so a `none` result at every fuel means the recursion never returns. -/
def genRefAttempts (collides : Nat → Bool) : Nat → Nat → Option Nat
  | 0, _ => none
  | fuel + 1, attempt =>
    if collides attempt then genRefAttempts collides fuel (attempt + 1)
    else some attempt

/-- The documented inventory bound: every row satisfies
`0 ≤ availableCount ≤ totalStock`. -/
def stockBound (db : DB) : Prop :=
  ∀ r ∈ db.inventory, 0 ≤ r.availableCount ∧ r.availableCount ≤ r.totalStock

instance (db : DB) : Decidable (stockBound db) := by
  unfold stockBound; infer_instance

/-- The per-night price as the spec words it: the DailyRate override when
one exists for that room type and date, else the base price. -/
def specNightPrice (db : DB) (rt : Nat) (base : ℚ) (d : Nat) : ℚ :=
  match db.dailyRates.find? (fun r => decide (r.roomTypeId = rt ∧ r.date = d)) with
  | some r => r.price
  | none => base

/-- A money value that is a whole number of cents. -/
def isCents (x : ℚ) : Prop := ∃ n : ℤ, x = n / 100

/-- A payment row with status SUCCESS exists for booking id `i`. -/
def paymentSuccess (db : DB) (i : Nat) : Prop :=
  ∃ p ∈ db.payments, p.bookingId = i ∧ p.status = .success

/-- One committed transition of the booking lifecycle: some booking
controller call that returned successfully.  These are the only operations
in the repository that write a booking row. -/
inductive Step : DB → DB → Prop where
  | create (db : DB) (today guestId rt ci co nid : Nat) (db' : DB) (b : BookingRec) :
      createBooking db today guestId rt ci co nid = .ok (db', b) → Step db db'
  | confirm (db : DB) (bid : Nat) (db' : DB) (b : BookingRec) :
      confirmBooking db bid = .ok (db', b) → Step db db'
  | cancel (db : DB) (today bid : Nat) (db' : DB) (b : BookingRec) :
      cancelBooking db today bid = .ok (db', b) → Step db db'
  | checkin (db : DB) (today bid : Nat) (uid : Option Nat) (db' : DB) (b : BookingRec) :
      checkInBooking db today bid uid = .ok (db', b) → Step db db'
  | checkout (db : DB) (bid : Nat) (db' : DB) (b : BookingRec) :
      checkOutBooking db bid = .ok (db', b) → Step db db'
  | modify (db : DB) (today bid : Nat) (ci co nrt : Option Nat) (db' : DB) (b : BookingRec) :
      updateBooking db today bid ci co nrt = .ok (db', b) → Step db db'

/-- State for the C1 scenario: room type 1 has one inventory row for date 1
with `availableCount = 1`, `totalStock = 2`, and a CONFIRMED booking for
[1, 2) holding the other unit. -/
def dbCap : DB :=
  { roomTypes := [⟨1, 100, none⟩]
  , inventory := [⟨1, 1, 1, 2⟩]
  , dailyRates := []
  , bookings := [⟨1, 1, 1, 1, 2, 100, .confirmed, none⟩]
  , payments := []
  , roomUnits := []
  , guests := [1] }

/-- `dbCap` after the administrative edit lowering `totalStock` to 1. -/
def dbCapLowered : DB :=
  { dbCap with inventory := [⟨1, 1, 1, 1⟩] }

/-- `dbCapLowered` after `cancelBooking`: the uncapped increment leaves
`availableCount = 2 > totalStock = 1`. -/
def dbCapBroken : DB :=
  { dbCap with
    inventory := [⟨1, 1, 2, 1⟩],
    bookings := [⟨1, 1, 1, 1, 2, 100, .cancelled, none⟩] }

/-- State for the C4 counterexample: a reserve request for [1, 3) while an
inventory row exists only for date 1; date 2 has no row. -/
def dbGap : DB :=
  { roomTypes := [⟨1, 100, none⟩]
  , inventory := [⟨1, 1, 5, 5⟩]
  , dailyRates := []
  , bookings := []
  , payments := []
  , roomUnits := []
  , guests := [1] }

/-- `dbGap` after the reserve that the claim says must fail: the one
existing row was decremented. -/
def dbGapAfter : DB :=
  { dbGap with inventory := [⟨1, 1, 4, 5⟩] }


/-- State for the C2 witness: the row for date 1 has no stock left. -/
def dbLow : DB :=
  { roomTypes := [⟨1, 100, none⟩]
  , inventory := [⟨1, 1, 0, 2⟩]
  , dailyRates := []
  , bookings := []
  , payments := []
  , roomUnits := []
  , guests := [1] }

/-- State for the C10 witness: every date of [1, 3) has `availableCount = 1`
and one CONFIRMED booking overlaps the range (its stock already
decremented at creation). -/
def dbOver : DB :=
  { roomTypes := [⟨1, 100, none⟩]
  , inventory := [⟨1, 1, 1, 2⟩, ⟨1, 2, 1, 2⟩]
  , dailyRates := []
  , bookings := [⟨1, 1, 1, 1, 3, 200, .confirmed, none⟩]
  , payments := []
  , roomUnits := []
  , guests := [1] }

/-- State for the C5 witness: two in-bound rows over [1, 3). -/
def dbRT : DB :=
  { roomTypes := [⟨1, 100, none⟩]
  , inventory := [⟨1, 1, 2, 2⟩, ⟨1, 2, 1, 2⟩]
  , dailyRates := []
  , bookings := []
  , payments := []
  , roomUnits := []
  , guests := [1] }

/-- `dbRT` after reserving one unit over [1, 3). -/
def dbRTHeld : DB :=
  { dbRT with inventory := [⟨1, 1, 1, 2⟩, ⟨1, 2, 0, 2⟩] }

/-- State for the C7 witness: a PENDING booking for [2, 3), cancelled on
day 1 (strictly before check-in). -/
def dbCxl : DB :=
  { roomTypes := [⟨1, 100, none⟩]
  , inventory := [⟨1, 2, 0, 2⟩]
  , dailyRates := []
  , bookings := [⟨1, 1, 1, 2, 3, 100, .pending, none⟩]
  , payments := []
  , roomUnits := []
  , guests := [1] }

/-- State for the C3 counterexample: a PENDING booking holds the date-1 row
(availableCount 0) and is moved to [2, 3), whose row has one unit left. -/
def dbMod : DB :=
  { roomTypes := [⟨1, 100, none⟩]
  , inventory := [⟨1, 1, 0, 1⟩, ⟨1, 2, 1, 1⟩]
  , dailyRates := []
  , bookings := [⟨1, 1, 1, 1, 2, 100, .pending, none⟩]
  , payments := []
  , roomUnits := []
  , guests := [1] }

/-- State for the C3 amended witness: the new range [2, 3) has no stock
left, so the modification is rejected with 409. -/
def dbModBad : DB :=
  { roomTypes := [⟨1, 100, none⟩]
  , inventory := [⟨1, 1, 0, 1⟩, ⟨1, 2, 0, 1⟩]
  , dailyRates := []
  , bookings := [⟨1, 1, 1, 1, 2, 100, .pending, none⟩]
  , payments := []
  , roomUnits := []
  , guests := [1] }

/-- State for the C6 witness: a PENDING booking with a SUCCESS payment. -/
def dbConf : DB :=
  { roomTypes := [⟨1, 100, none⟩]
  , inventory := []
  , dailyRates := []
  , bookings := [⟨1, 1, 1, 5, 6, 100, .pending, none⟩]
  , payments := [⟨1, .success⟩]
  , roomUnits := []
  , guests := [1] }

/-- `dbConf` after `confirmBooking`. -/
def dbConfAfter : DB :=
  { dbConf with bookings := [⟨1, 1, 1, 5, 6, 100, .confirmed, none⟩] }

/-- State for the C8 witness: base price 100 with a single 150 override on
the second night of the stay [1, 3). -/
def dbPrice : DB :=
  { roomTypes := [⟨1, 100, none⟩]
  , inventory := []
  , dailyRates := [⟨1, 2, 150⟩]
  , bookings := []
  , payments := []
  , roomUnits := []
  , guests := [] }

/-! ## General helper lemmas -/

lemma foldl_min_le_init (xs : List Int) (a : Int) : xs.foldl min a ≤ a := by
  induction xs generalizing a with
  | nil => simp
  | cons y ys ih => exact le_trans (ih (min a y)) (min_le_left a y)

lemma foldl_min_le_mem {x : Int} :
    ∀ (xs : List Int) (a : Int), x ∈ xs → xs.foldl min a ≤ x := by
  intro xs
  induction xs with
  | nil => intro a h; cases h
  | cons y ys ih =>
    intro a h
    rcases List.mem_cons.mp h with h | h
    · subst h
      exact le_trans (foldl_min_le_init ys (min a x)) (min_le_right a x)
    · exact ih (min a y) h

lemma listMinI_le {x : Int} {l : List Int} (hx : x ∈ l) : listMinI l ≤ x := by
  cases l with
  | nil => cases hx
  | cons y ys =>
    rcases List.mem_cons.mp hx with h | h
    · subst h; exact foldl_min_le_init ys x
    · exact foldl_min_le_mem ys y h

/-! ## C9: reference generation recursion -/

lemma genRefAttempts_allcollide (fuel attempt : Nat) :
    genRefAttempts (fun _ => true) fuel attempt = none := by
  induction fuel generalizing attempt with
  | zero => rfl
  | succ f ih => simp [genRefAttempts, ih]

lemma genRefAttempts_firstn (n : Nat) :
    ∀ (f a : Nat), a ≤ n →
      genRefAttempts (fun k => decide (k < n)) f a =
        if n - a < f then some n else none := by
  intro f
  induction f with
  | zero => intro a _; simp [genRefAttempts]
  | succ f ih =>
    intro a ha
    by_cases h : a < n
    · have h1 : genRefAttempts (fun k => decide (k < n)) (f + 1) a =
          genRefAttempts (fun k => decide (k < n)) f (a + 1) := by
        simp [genRefAttempts, h]
      rw [h1, ih (a + 1) h]
      by_cases h2 : n - (a + 1) < f
      · rw [if_pos h2, if_pos (by omega)]
      · rw [if_neg h2, if_neg (by omega)]
    · have he : a = n := le_antisymm ha (not_lt.mp h)
      subst he
      simp [genRefAttempts, h]

/-- C9: the claim says reference generation retries collisions only a
bounded number of times (a bounded loop with explicit failure after N
attempts).  The source instead retries by unbounded recursion
(`generateBookingReference` calls itself whenever the generated reference
already exists): under an oracle where every attempt collides, no recursion
depth ever returns (first conjunct: no explicit failure after any number of
attempts, the recursion simply never terminates), and for every candidate
bound `n` the oracle that collides on the first `n` attempts makes the code
use `n + 1` attempts before succeeding (second conjunct), so no uniform
attempt bound exists. -/
theorem genRefAttempts_unbounded_recursion :
    (∀ fuel attempt, genRefAttempts (fun _ => true) fuel attempt = none) ∧
    (∀ n : Nat, genRefAttempts (fun k => decide (k < n)) n 0 = none ∧
      genRefAttempts (fun k => decide (k < n)) (n + 1) 0 = some n) := by
  constructor
  · exact genRefAttempts_allcollide
  · intro n
    constructor
    · rw [genRefAttempts_firstn n n 0 (Nat.zero_le n)]
      simp
    · rw [genRefAttempts_firstn n (n + 1) 0 (Nat.zero_le n)]
      simp

/-! ## C1: the inventory bound under cancelBooking -/

/-- C1: the claim says every core operation preserves
`0 ≤ availableCount ≤ totalStock`, including `cancelBooking` after
`totalStock` was lowered administratively while a booking held stock.  The
code violates it: starting from `dbCap` (one row, availableCount 1,
totalStock 2, one CONFIRMED booking holding the other unit), the
administrative edit lowering `totalStock` to 1 is accepted, and
`cancelBooking` then increments `availableCount` with no
`min(·, totalStock)` cap (unlike `incrementInventory`, which caps), leaving
`availableCount = 2 > totalStock = 1`. -/
theorem cancelBooking_violates_stock_bound :
    stockBound dbCap ∧
    updateInventory dbCap 1 1 none (some 1) = .ok dbCapLowered ∧
    stockBound dbCapLowered ∧
    cancelBooking dbCapLowered 0 1 =
      .ok (dbCapBroken, ⟨1, 1, 1, 1, 2, 100, .cancelled, none⟩) ∧
    ¬ stockBound dbCapBroken := by
  refine ⟨by decide, by decide, by decide, by decide, by decide⟩

/-! ## C4: reserving over a range with missing rows -/

/-- C4 counterexample: the claim says a reserve over a range with at least
one date lacking an inventory row fails with a missing-inventory error and
decrements nothing.  In `dbGap`, date 2 of the range [1, 3) has no row, yet
`decrementInventory` succeeds and decrements the one existing row, and
`createBooking` for the same range also succeeds, persisting the booking
and decrementing only the rows that exist. -/
theorem reserve_missing_date_counterexample :
    (∀ r ∈ dbGap.inventory, ¬(r.roomTypeId = 1 ∧ r.date = 2)) ∧
    (1 ≤ 2 ∧ 2 < 3) ∧
    decrementInventory dbGap 1 1 3 1 = .ok dbGapAfter ∧
    (createBooking dbGap 0 1 1 1 3 9).map
        (fun p => (p.1.inventory, p.2.id, p.2.checkIn, p.2.checkOut, p.2.status)) =
      .ok ([⟨1, 1, 4, 5⟩], 9, 1, 3, .pending) := by
  refine ⟨by decide, by decide, by decide, by decide⟩

/-- C4 amended: the reserve fails with the 404 missing-inventory error
exactly when no date of the range has an inventory row (the range query
returns nothing); missing individual dates are not detected, and when at
least one row exists and every existing row has sufficient stock the
reserve succeeds, decrementing exactly the rows that exist. -/
theorem decrementInventory_missing_rows (db : DB) (rt s e : Nat) (q : Int)
    (hq : 1 ≤ q) :
    (decrementInventory db rt s e q =
        .error ⟨404, "No inventory found for date range"⟩ ↔
      invRange db rt s e = []) ∧
    (invRange db rt s e ≠ [] → (∀ r ∈ invRange db rt s e, q ≤ r.availableCount) →
      decrementInventory db rt s e q =
        .ok { db with inventory := db.inventory.map (applyInRange rt s e (decBy q)) }) := by
  have hq' : ¬(q < 1) := not_lt.mpr hq
  constructor
  · by_cases hemp : invRange db rt s e = []
    · simp [decrementInventory, hq', hemp]
    · by_cases hins : ∀ r ∈ invRange db rt s e, q ≤ r.availableCount
      · simp only [decrementInventory, if_neg hq']
        simp [hemp]
        rw [if_pos hins]
        simp [hemp]
      · simp only [decrementInventory, if_neg hq']
        simp [hemp]
        rw [if_neg hins]
        simp [hemp]
  · intro hne hsuf
    simp [decrementInventory, hq', hne]
    exact hsuf

/-- C4 amended, witness: at the concrete `dbGap` state the reserve for
[1, 3) succeeds and decrements the one existing row. -/
theorem decrementInventory_missing_rows_witness :
    decrementInventory dbGap 1 1 3 1 =
      .ok { dbGap with
            inventory := dbGap.inventory.map (applyInRange 1 1 3 (decBy 1)) } :=
  (decrementInventory_missing_rows dbGap 1 1 3 1 (by decide)).2
    (by decide) (by decide)

/-! ## Inversion lemmas for the availability gate and range updates -/

lemma validateBookingDates_ok {today s e : Nat} {p : Nat × Nat}
    (h : validateBookingDates today s e = .ok p) : p = (s, e) := by
  unfold validateBookingDates at h
  by_cases h1 : s < today
  · rw [if_pos h1] at h; exact Except.noConfusion h
  rw [if_neg h1] at h
  by_cases h2 : e ≤ s
  · rw [if_pos h2] at h; exact Except.noConfusion h
  rw [if_neg h2] at h
  by_cases h3 : 10 < e - s
  · rw [if_pos h3] at h; exact Except.noConfusion h
  rw [if_neg h3] at h
  exact ((Except.ok.injEq _ _).mp h).symm

lemma checkRoomAvailability_ok_inv {db : DB} {rt s e : Nat} {m : Int}
    (h : checkRoomAvailability db rt s e = .ok m) :
    invRange db rt s e ≠ [] ∧
    ∀ r ∈ invRange db rt s e,
      (overlapCount db rt s e : Int) < r.availableCount := by
  unfold checkRoomAvailability at h
  by_cases h1 : (invRange db rt s e).isEmpty = true
  · rw [if_pos h1] at h; exact Except.noConfusion h
  rw [if_neg h1] at h
  by_cases h2 : minAvail db rt s e ≤ (overlapCount db rt s e : Int)
  · rw [if_pos h2] at h; exact Except.noConfusion h
  rw [if_neg h2] at h
  refine ⟨by simpa [List.isEmpty_iff] using h1, ?_⟩
  intro r hr
  have hmin : minAvail db rt s e ≤ r.availableCount := by
    simpa [minAvail] using
      (listMinI_le (List.mem_map_of_mem (fun r => r.availableCount) hr))
  omega

lemma checkRoomAvailability_err_of_low {db : DB} {rt s e : Nat} {r : InvRow}
    (hr : r ∈ invRange db rt s e) (hlow : r.availableCount < 1) :
    checkRoomAvailability db rt s e =
      .error ⟨409, "Room not available for selected dates"⟩ := by
  have h1 : ¬((invRange db rt s e).isEmpty = true) := by
    rw [List.isEmpty_iff]
    intro hh
    rw [hh] at hr
    cases hr
  have h2 : minAvail db rt s e ≤ (overlapCount db rt s e : Int) := by
    have hmin : minAvail db rt s e ≤ r.availableCount := by
      simpa [minAvail] using
        (listMinI_le (List.mem_map_of_mem (fun r => r.availableCount) hr))
    have hnn : (0 : Int) ≤ (overlapCount db rt s e : Int) := Int.natCast_nonneg _
    omega
  unfold checkRoomAvailability
  rw [if_neg h1, if_pos h2]

lemma decrementInventory_ok_inv {db : DB} {rt s e : Nat} {q : Int} {db' : DB}
    (h : decrementInventory db rt s e q = .ok db') :
    1 ≤ q ∧ invRange db rt s e ≠ [] ∧
    (∀ r ∈ invRange db rt s e, q ≤ r.availableCount) ∧
    db' = { db with
            inventory := db.inventory.map (applyInRange rt s e (decBy q)) } := by
  unfold decrementInventory at h
  by_cases h1 : q < 1
  · rw [if_pos h1] at h; exact Except.noConfusion h
  rw [if_neg h1] at h
  by_cases h2 : (invRange db rt s e).isEmpty = true
  · rw [if_pos h2] at h; exact Except.noConfusion h
  rw [if_neg h2] at h
  by_cases h3 : ((invRange db rt s e).filter
      (fun r => decide (r.availableCount < q))).isEmpty = true
  · rw [if_pos h3] at h
    rw [Except.ok.injEq] at h
    rw [List.isEmpty_iff, List.filter_eq_nil_iff] at h3
    refine ⟨by omega, by simpa [List.isEmpty_iff] using h2, ?_, h.symm⟩
    intro r hr
    have := h3 r hr
    simp only [decide_eq_true_eq] at this
    omega
  · rw [if_neg h3] at h; exact Except.noConfusion h

/-- C2: reserving a date range is all-or-nothing.  For `decrementInventory`:
if any loaded row has `availableCount < quantity` the call returns an error
(and, the transaction aborting, no decrement is committed — in the model an
error returns no successor state), and every successful call decrements
every row of the range by exactly the quantity, touching no other row.  For
the decrement inside `createBooking` (quantity 1): if any row of the range
has `availableCount < 1` the whole create fails (the availability gate
rejects before the transaction), and every successful create decrements
every row of the range by exactly one. -/
theorem reserve_all_or_nothing :
    (∀ (db : DB) (rt s e : Nat) (q : Int),
      (∃ r ∈ invRange db rt s e, r.availableCount < q) →
        ∃ er, decrementInventory db rt s e q = .error er) ∧
    (∀ (db : DB) (rt s e : Nat) (q : Int) (db' : DB),
      decrementInventory db rt s e q = .ok db' →
        (∀ r ∈ invRange db rt s e, q ≤ r.availableCount) ∧
        db'.inventory = db.inventory.map (applyInRange rt s e (decBy q))) ∧
    (∀ (db : DB) (today guestId rt checkIn checkOut newId : Nat),
      (∃ r ∈ invRange db rt checkIn checkOut, r.availableCount < 1) →
        ∃ er, createBooking db today guestId rt checkIn checkOut newId = .error er) ∧
    (∀ (db : DB) (today guestId rt checkIn checkOut newId : Nat)
        (db' : DB) (b : BookingRec),
      createBooking db today guestId rt checkIn checkOut newId = .ok (db', b) →
        (∀ r ∈ invRange db rt checkIn checkOut, 1 ≤ r.availableCount) ∧
        db'.inventory =
          db.inventory.map (applyInRange rt checkIn checkOut (decBy 1))) := by
  refine ⟨?_, ?_, ?_, ?_⟩
  · rintro db rt s e q ⟨r, hr, hlow⟩
    unfold decrementInventory
    by_cases h1 : q < 1
    · rw [if_pos h1]; exact ⟨_, rfl⟩
    rw [if_neg h1]
    by_cases h2 : (invRange db rt s e).isEmpty = true
    · rw [if_pos h2]; exact ⟨_, rfl⟩
    rw [if_neg h2]
    have h3 : ¬(((invRange db rt s e).filter
        (fun r => decide (r.availableCount < q))).isEmpty = true) := by
      rw [List.isEmpty_iff, List.filter_eq_nil_iff]
      push_neg
      exact ⟨r, hr, by simpa using hlow⟩
    rw [if_neg h3]
    exact ⟨_, rfl⟩
  · intro db rt s e q db' h
    obtain ⟨-, -, hsuf, hdb⟩ := decrementInventory_ok_inv h
    exact ⟨hsuf, by rw [hdb]⟩
  · rintro db today guestId rt ci co nid ⟨r, hr, hlow⟩
    unfold createBooking
    by_cases hg : guestId ∈ db.guests
    · rw [if_pos hg]
      cases hv : validateBookingDates today ci co with
      | error er => exact ⟨er, rfl⟩
      | ok p =>
        obtain rfl := validateBookingDates_ok hv
        dsimp only
        cases hrt : findRoomType db rt with
        | none => exact ⟨_, rfl⟩
        | some t =>
          dsimp only
          rw [checkRoomAvailability_err_of_low hr hlow]
          exact ⟨_, rfl⟩
    · rw [if_neg hg]; exact ⟨_, rfl⟩
  · intro db today guestId rt ci co nid db' b h
    unfold createBooking at h
    by_cases hg : guestId ∈ db.guests
    · rw [if_pos hg] at h
      cases hv : validateBookingDates today ci co with
      | error er => rw [hv] at h; exact Except.noConfusion h
      | ok p =>
        obtain rfl := validateBookingDates_ok hv
        rw [hv] at h
        dsimp only at h
        cases hrt : findRoomType db rt with
        | none => rw [hrt] at h; exact Except.noConfusion h
        | some t =>
          rw [hrt] at h
          dsimp only at h
          cases hca : checkRoomAvailability db rt ci co with
          | error er => rw [hca] at h; exact Except.noConfusion h
          | ok m =>
            rw [hca] at h
            dsimp only at h
            cases hcp : calculateBookingPrice db rt ci co with
            | error er => rw [hcp] at h; exact Except.noConfusion h
            | ok price =>
              rw [hcp] at h
              dsimp only at h
              have h' := (Except.ok.injEq _ _).mp h
              have hdb : db' = { db with
                  inventory :=
                    db.inventory.map (applyInRange rt ci co (decBy 1)),
                  bookings := db.bookings ++
                    [⟨nid, guestId, rt, ci, co, price, .pending, none⟩] } :=
                (congrArg Prod.fst h').symm
              have hinv := checkRoomAvailability_ok_inv hca
              constructor
              · intro r hr
                have hlt := hinv.2 r hr
                have hnn : (0 : Int) ≤ (overlapCount db rt ci co : Int) :=
                  Int.natCast_nonneg _
                omega
              · rw [hdb]
    · rw [if_neg hg] at h; exact Except.noConfusion h

/-- C2 witness: in `dbLow` the date-1 row has no stock, so `createBooking`
over [1, 2) fails. -/
theorem reserve_all_or_nothing_witness :
    ∃ er, createBooking dbLow 0 1 1 1 2 9 = .error er :=
  reserve_all_or_nothing.2.2.1 dbLow 0 1 1 1 2 9
    ⟨⟨1, 1, 0, 2⟩, by decide, by decide⟩

/-- C10: with at least one row in the range, the availability gate rejects
with 409 Conflict exactly when the minimum `availableCount` over the range
is at most the number of CONFIRMED or CHECKED_IN bookings overlapping the
range — although the stock of those bookings was already decremented at
creation, so they are discounted a second time. -/
theorem checkRoomAvailability_conflict_iff (db : DB) (rt s e : Nat)
    (hne : invRange db rt s e ≠ []) :
    (checkRoomAvailability db rt s e =
        .error ⟨409, "Room not available for selected dates"⟩ ↔
      minAvail db rt s e ≤ (overlapCount db rt s e : Int)) := by
  have h1 : ¬((invRange db rt s e).isEmpty = true) := by
    rw [List.isEmpty_iff]; exact hne
  unfold checkRoomAvailability
  rw [if_neg h1]
  by_cases h2 : minAvail db rt s e ≤ (overlapCount db rt s e : Int)
  · rw [if_pos h2]; simp [h2]
  · rw [if_neg h2]; simp [h2]

/-- C10 witness: in `dbOver` every date of [1, 3) still has
`availableCount = 1`, yet the request is rejected with 409 because one
CONFIRMED overlapping booking (whose stock is already decremented) is
counted against the minimum. -/
theorem checkRoomAvailability_conflict_iff_witness :
    (∀ r ∈ dbOver.inventory, 1 ≤ r.availableCount) ∧
    checkRoomAvailability dbOver 1 1 3 =
      .error ⟨409, "Room not available for selected dates"⟩ :=
  ⟨by decide,
    (checkRoomAvailability_conflict_iff dbOver 1 1 3 (by decide)).mpr (by decide)⟩

/-! ## C5: the reserve and release round trip -/

lemma invInRange_applyInRange (rt s e : Nat) (f : InvRow → InvRow)
    (hfrt : ∀ r, (f r).roomTypeId = r.roomTypeId)
    (hfd : ∀ r, (f r).date = r.date) (r : InvRow) :
    invInRange rt s e (applyInRange rt s e f r) = invInRange rt s e r := by
  unfold applyInRange
  by_cases h : invInRange rt s e r = true
  · rw [if_pos h]
    simp [invInRange, hfrt r, hfd r]
  · rw [if_neg h]

lemma invRange_map_applyInRange (db : DB) (rt s e : Nat) (f : InvRow → InvRow)
    (hfrt : ∀ r, (f r).roomTypeId = r.roomTypeId)
    (hfd : ∀ r, (f r).date = r.date) :
    invRange { db with inventory := db.inventory.map (applyInRange rt s e f) }
        rt s e =
      (invRange db rt s e).map (applyInRange rt s e f) := by
  unfold invRange
  dsimp only
  rw [List.filter_map]
  congr 1
  apply List.filter_congr
  intro x _
  simpa [Function.comp] using invInRange_applyInRange rt s e f hfrt hfd x

/-- C5: whenever the reserve succeeds, releasing the same room type, range,
and quantity succeeds (release cannot fail here: the rows the reserve saw
still exist) and restores the database to its exact pre-reserve state,
provided the pre-reserve state satisfied `availableCount ≤ totalStock` on
the range (that is, `totalStock` was not lowered in between); the release
raises each row to `min(availableCount + quantity, totalStock)`. -/
theorem reserve_release_round_trip (db : DB) (rt s e : Nat) (q : Int) (db' : DB)
    (hbound : ∀ r ∈ invRange db rt s e, r.availableCount ≤ r.totalStock)
    (hres : decrementInventory db rt s e q = .ok db') :
    incrementInventory db' rt s e q = .ok db := by
  obtain ⟨hq, hne, hsuf, hdb⟩ := decrementInventory_ok_inv hres
  subst hdb
  have hrange := invRange_map_applyInRange db rt s e (decBy q)
    (fun r => rfl) (fun r => rfl)
  have hne' : invRange
      { db with inventory := db.inventory.map (applyInRange rt s e (decBy q)) }
      rt s e ≠ [] := by
    rw [hrange]
    simpa [List.map_eq_nil_iff] using hne
  unfold incrementInventory
  rw [if_neg (by omega : ¬q < 1)]
  rw [if_neg (by rw [List.isEmpty_iff]; exact hne')]
  congr 1
  have hmaps : (db.inventory.map (applyInRange rt s e (decBy q))).map
      (applyInRange rt s e (incCapped q)) = db.inventory := by
    rw [List.map_map]
    have hpt : ∀ r ∈ db.inventory,
        (applyInRange rt s e (incCapped q) ∘ applyInRange rt s e (decBy q)) r =
          id r := by
      intro r hrmem
      by_cases h : invInRange rt s e r = true
      · have hmem : r ∈ invRange db rt s e := List.mem_filter.mpr ⟨hrmem, h⟩
        have hb := hbound r hmem
        obtain ⟨rrt, rd, ra, rts⟩ := r
        have h2 : invInRange rt s e ⟨rrt, rd, ra - q, rts⟩ = true := by
          simpa [invInRange] using h
        have harith : ra - q + q = ra := by ring
        simp [Function.comp, applyInRange, h, h2, decBy, incCapped, harith,
          min_eq_left hb]
      · simp [Function.comp, applyInRange, h]
    calc db.inventory.map
          (applyInRange rt s e (incCapped q) ∘ applyInRange rt s e (decBy q))
        = db.inventory.map id := List.map_congr_left hpt
      _ = db.inventory := List.map_id _
  show ({ db with
          inventory := (db.inventory.map (applyInRange rt s e (decBy q))).map
            (applyInRange rt s e (incCapped q)) } : DB) = db
  rw [hmaps]

/-- C5 witness: reserving one unit over [1, 3) in `dbRT` yields `dbRTHeld`,
and releasing it restores `dbRT` exactly. -/
theorem reserve_release_round_trip_witness :
    incrementInventory dbRTHeld 1 1 3 1 = .ok dbRT :=
  reserve_release_round_trip dbRT 1 1 3 1 dbRTHeld (by decide) (by decide)

/-! ## C7: the cancellation guard -/

lemma mem_nightsList {s e d : Nat} : d ∈ nightsList s e ↔ s ≤ d ∧ d < e := by
  unfold nightsList
  simp only [List.mem_map, List.mem_range]
  constructor
  · rintro ⟨k, hk, rfl⟩
    omega
  · intro h
    exact ⟨d - s, by omega, by omega⟩

/-- C7: assuming the invariant that the check-in guard of `checkInBooking`
establishes (a CHECKED_IN booking has `checkIn ≤ today`, and `today` never
decreases), `cancelBooking` succeeds exactly when the status is PENDING or
CONFIRMED and today is strictly before the check-in date; a booking whose
check-in equals today (or is past) and is not terminal is rejected with the
400 state error; terminal statuses (CANCELLED, CHECKED_OUT) are rejected by
the first guard; and a successful cancellation increments each existing row
of the original half-open range by one — one unit per night, each night
that has a row. -/
theorem cancelBooking_guard (db : DB) (today bid : Nat) (b : BookingRec)
    (hfind : bookingById db bid = some b)
    (hinv : b.status = .checkedIn → b.checkIn ≤ today) :
    ((∃ db' b', cancelBooking db today bid = .ok (db', b')) ↔
      ((b.status = .pending ∨ b.status = .confirmed) ∧ today < b.checkIn)) ∧
    (¬(b.status = .checkedOut ∨ b.status = .cancelled) → b.checkIn ≤ today →
      cancelBooking db today bid =
        .error ⟨400, "Cannot cancel booking after check-in has started"⟩) ∧
    (∀ db' b', cancelBooking db today bid = .ok (db', b') →
      db'.inventory = db.inventory.map
        (applyInRange b.roomTypeId b.checkIn b.checkOut incOne) ∧
      ∀ d ∈ nightsList b.checkIn b.checkOut, ∀ r ∈ db.inventory,
        r.roomTypeId = b.roomTypeId → r.date = d →
          incOne r ∈ db'.inventory) := by
  have hred : cancelBooking db today bid =
      (if b.status = .checkedOut ∨ b.status = .cancelled then
        .error ⟨400, "Cannot cancel this booking"⟩
      else if b.checkIn ≤ today then
        .error ⟨400, "Cannot cancel booking after check-in has started"⟩
      else
        .ok ({ db with
                inventory := db.inventory.map
                  (applyInRange b.roomTypeId b.checkIn b.checkOut incOne),
                bookings := updateById db.bookings bid (setStatus .cancelled) },
             setStatus .cancelled b)) := by
    unfold cancelBooking
    rw [hfind]
  refine ⟨?_, ?_, ?_⟩
  · constructor
    · rintro ⟨db', b', hok⟩
      rw [hred] at hok
      by_cases ht : b.status = .checkedOut ∨ b.status = .cancelled
      · rw [if_pos ht] at hok; exact Except.noConfusion hok
      rw [if_neg ht] at hok
      by_cases hd : b.checkIn ≤ today
      · rw [if_pos hd] at hok; exact Except.noConfusion hok
      rw [if_neg hd] at hok
      refine ⟨?_, by omega⟩
      cases hst : b.status with
      | pending => exact Or.inl rfl
      | confirmed => exact Or.inr rfl
      | cancelled => exact absurd (Or.inr hst) ht
      | checkedOut => exact absurd (Or.inl hst) ht
      | checkedIn => exact absurd (hinv hst) hd
    · rintro ⟨hpc, hlt⟩
      rw [hred]
      have ht : ¬(b.status = .checkedOut ∨ b.status = .cancelled) := by
        rcases hpc with h | h <;> simp [h]
      rw [if_neg ht, if_neg (by omega : ¬b.checkIn ≤ today)]
      exact ⟨_, _, rfl⟩
  · intro ht hd
    rw [hred, if_neg ht, if_pos hd]
  · intro db' b' hok
    rw [hred] at hok
    by_cases ht : b.status = .checkedOut ∨ b.status = .cancelled
    · rw [if_pos ht] at hok; exact Except.noConfusion hok
    rw [if_neg ht] at hok
    by_cases hd : b.checkIn ≤ today
    · rw [if_pos hd] at hok; exact Except.noConfusion hok
    rw [if_neg hd] at hok
    have h' := (Except.ok.injEq _ _).mp hok
    have hdb : ({ db with
        inventory := db.inventory.map
          (applyInRange b.roomTypeId b.checkIn b.checkOut incOne),
        bookings := updateById db.bookings bid (setStatus .cancelled) } : DB) =
        db' := congrArg Prod.fst h'
    constructor
    · rw [← hdb]
    · intro d hdmem r hrmem hrrt hrd
      rw [← hdb]
      have hbound := mem_nightsList.mp hdmem
      have hin : invInRange b.roomTypeId b.checkIn b.checkOut r = true := by
        simp only [invInRange, decide_eq_true_eq]
        exact ⟨hrrt, by omega, by omega⟩
      have hmm := List.mem_map_of_mem
        (applyInRange b.roomTypeId b.checkIn b.checkOut incOne) hrmem
      rw [applyInRange, if_pos hin] at hmm
      exact hmm

/-- C7 witness: cancelling the PENDING booking of `dbCxl` on day 1, one day
before its check-in, succeeds. -/
theorem cancelBooking_guard_witness :
    ∃ db' b', cancelBooking dbCxl 1 1 = .ok (db', b') :=
  ((cancelBooking_guard dbCxl 1 1 ⟨1, 1, 1, 2, 3, 100, .pending, none⟩
    (by decide) (by decide)).1).mpr (by decide)

/-! ## C3: modifyBooking and inventory -/

/-- C3 counterexample: the claim says a PENDING modify that changes dates
releases the old range and reserves the new range.  In `dbMod` the booking
holds the date-1 row (availableCount 0) and is moved to [2, 3): the update
succeeds and changes the dates, yet the inventory list is exactly the one
before the call — the old range is never released (date 1 stays 0) and the
new range is never reserved (date 2 stays 1). -/
theorem updateBooking_counterexample :
    (updateBooking dbMod 0 1 (some 2) (some 3) none).map
        (fun p => (p.1.inventory, p.2.checkIn, p.2.checkOut)) =
      .ok (dbMod.inventory, 2, 3) := by decide

/-- C3 amended: `updateBooking` on a PENDING booking re-checks availability
of the new range and re-prices, but moves no stock: every successful update
leaves the inventory rows untouched (the old range stays held, the new
range is not decremented); and when the new range fails the availability
gate, the update returns that error — the operation aborts and the booking
keeps its original state. -/
theorem updateBooking_amended :
    (∀ (db : DB) (today bid : Nat) (ci co nrt : Option Nat)
        (db' : DB) (b' : BookingRec),
      updateBooking db today bid ci co nrt = .ok (db', b') →
        db'.inventory = db.inventory) ∧
    (∀ (db : DB) (today bid : Nat) (ci co nrt : Option Nat)
        (b : BookingRec) (er : ApiError),
      bookingById db bid = some b → b.status = .pending →
      (ci.isSome ∨ co.isSome ∨ nrt.isSome) →
      validateBookingDates today (ci.getD b.checkIn) (co.getD b.checkOut) =
        .ok (ci.getD b.checkIn, co.getD b.checkOut) →
      checkRoomAvailability db (nrt.getD b.roomTypeId) (ci.getD b.checkIn)
          (co.getD b.checkOut) = .error er →
      updateBooking db today bid ci co nrt = .error er) := by
  constructor
  · intro db today bid ci co nrt db' b' h
    unfold updateBooking at h
    cases hfb : bookingById db bid with
    | none => rw [hfb] at h; exact Except.noConfusion h
    | some b =>
      rw [hfb] at h
      dsimp only at h
      by_cases hst : b.status = .pending
      · rw [if_pos hst] at h
        by_cases hpres : ci.isSome ∨ co.isSome ∨ nrt.isSome
        · rw [if_pos hpres] at h
          cases hv : validateBookingDates today (ci.getD b.checkIn)
              (co.getD b.checkOut) with
          | error er => rw [hv] at h; exact Except.noConfusion h
          | ok p =>
            rw [hv] at h
            obtain rfl := validateBookingDates_ok hv
            dsimp only at h
            cases hca : checkRoomAvailability db (nrt.getD b.roomTypeId)
                (ci.getD b.checkIn) (co.getD b.checkOut) with
            | error er => rw [hca] at h; exact Except.noConfusion h
            | ok m =>
              rw [hca] at h
              dsimp only at h
              cases hcp : calculateBookingPrice db (nrt.getD b.roomTypeId)
                  (ci.getD b.checkIn) (co.getD b.checkOut) with
              | error er => rw [hcp] at h; exact Except.noConfusion h
              | ok price =>
                rw [hcp] at h
                dsimp only at h
                have h' := (Except.ok.injEq _ _).mp h
                injection h' with hdb hb
                rw [← hdb]
        · rw [if_neg hpres] at h
          have h' := (Except.ok.injEq _ _).mp h
          injection h' with hdb hb
          rw [← hdb]
      · rw [if_neg hst] at h; exact Except.noConfusion h
  · intro db today bid ci co nrt b er hfb hst hpres hv hca
    unfold updateBooking
    rw [hfb]
    dsimp only
    rw [if_pos hst, if_pos hpres, hv]
    dsimp only
    rw [hca]

/-- C3 amended, witness: in `dbModBad` the new range [2, 3) has no stock
left, and the modification is rejected with the 409 availability error. -/
theorem updateBooking_amended_witness :
    updateBooking dbModBad 0 1 (some 2) (some 3) none =
      .error ⟨409, "Room not available for selected dates"⟩ :=
  updateBooking_amended.2 dbModBad 0 1 (some 2) (some 3) none
    ⟨1, 1, 1, 1, 2, 100, .pending, none⟩
    ⟨409, "Room not available for selected dates"⟩
    (by decide) (by decide) (by decide) (by decide) (by decide)

/-! ## C6: status transitions of the booking lifecycle -/

lemma find?_id_map (l : List BookingRec) (h : BookingRec → BookingRec)
    (hh : ∀ x, (h x).id = x.id) (i : Nat) :
    (l.map h).find? (fun b => b.id == i) =
      (l.find? (fun b => b.id == i)).map h := by
  induction l with
  | nil => rfl
  | cons a l ih =>
    by_cases ha : (a.id == i) = true
    · rw [List.map_cons,
        @List.find?_cons_of_pos _ (fun b => b.id == i) (h a) (l.map h)
          (by simpa [hh] using ha),
        @List.find?_cons_of_pos _ (fun b => b.id == i) a l ha]
      rfl
    · rw [List.map_cons,
        @List.find?_cons_of_neg _ (fun b => b.id == i) (h a) (l.map h)
          (by simpa [hh] using ha),
        @List.find?_cons_of_neg _ (fun b => b.id == i) a l ha, ih]

lemma status_trace_of_update {db db' : DB} {bid i : Nat}
    {g : BookingRec → BookingRec} {b' : BookingRec}
    (hg : ∀ x, (g x).id = x.id)
    (hbk : db'.bookings = updateById db.bookings bid g)
    (hfind : bookingById db' i = some b') :
    ∃ b, bookingById db i = some b ∧
      (b' = b ∨ (b' = g b ∧ b.id = bid ∧ i = bid)) := by
  unfold bookingById at hfind ⊢
  rw [hbk] at hfind
  unfold updateById at hfind
  have hpres : ∀ x : BookingRec,
      ((if x.id == bid then g x else x) : BookingRec).id = x.id := by
    intro x
    by_cases hx : (x.id == bid) = true
    · simp [hx, hg x]
    · simp [hx]
  rw [find?_id_map _ _ hpres i] at hfind
  cases hold : db.bookings.find? (fun b => b.id == i) with
  | none => rw [hold] at hfind; exact Option.noConfusion hfind
  | some b =>
    rw [hold, Option.map_some'] at hfind
    injection hfind with heq
    refine ⟨b, rfl, ?_⟩
    by_cases hbb : (b.id == bid) = true
    · right
      have hbi : b.id = i := by simpa using List.find?_some hold
      have hbbid : b.id = bid := by simpa using hbb
      exact ⟨by rw [← heq, if_pos hbb], hbbid, by omega⟩
    · left
      rw [← heq, if_neg hbb]

lemma confirmBooking_ok_inv {db : DB} {bid : Nat} {db' : DB} {bb : BookingRec}
    (h : confirmBooking db bid = .ok (db', bb)) :
    ∃ b0, bookingById db bid = some b0 ∧ b0.status = .pending ∧
      paymentSuccess db b0.id ∧
      db'.bookings = updateById db.bookings bid (setStatus .confirmed) := by
  unfold confirmBooking at h
  cases hfb : bookingById db bid with
  | none => rw [hfb] at h; exact Except.noConfusion h
  | some b0 =>
    rw [hfb] at h
    dsimp only at h
    by_cases hst : b0.status = .pending
    · rw [if_pos hst] at h
      cases hp : db.payments.find? (fun p => p.bookingId == b0.id) with
      | none => rw [hp] at h; exact Except.noConfusion h
      | some p =>
        rw [hp] at h
        dsimp only at h
        by_cases hps : p.status = .success
        · rw [if_pos hps] at h
          have h' := (Except.ok.injEq _ _).mp h
          injection h' with hdb hb
          refine ⟨b0, rfl, hst,
            ⟨p, List.mem_of_find?_eq_some hp, ?_, hps⟩, by rw [← hdb]⟩
          simpa using List.find?_some hp
        · rw [if_neg hps] at h; exact Except.noConfusion h
    · rw [if_neg hst] at h; exact Except.noConfusion h

lemma createBooking_ok_bookings {db : DB} {today guestId rt ci co nid : Nat}
    {db' : DB} {b : BookingRec}
    (h : createBooking db today guestId rt ci co nid = .ok (db', b)) :
    ∃ nb : BookingRec, nb.status = .pending ∧
      db'.bookings = db.bookings ++ [nb] := by
  unfold createBooking at h
  by_cases hg : guestId ∈ db.guests
  · rw [if_pos hg] at h
    cases hv : validateBookingDates today ci co with
    | error er => rw [hv] at h; exact Except.noConfusion h
    | ok p =>
      obtain rfl := validateBookingDates_ok hv
      rw [hv] at h
      dsimp only at h
      cases hrt : findRoomType db rt with
      | none => rw [hrt] at h; exact Except.noConfusion h
      | some t =>
        rw [hrt] at h
        dsimp only at h
        cases hca : checkRoomAvailability db rt ci co with
        | error er => rw [hca] at h; exact Except.noConfusion h
        | ok m =>
          rw [hca] at h
          dsimp only at h
          cases hcp : calculateBookingPrice db rt ci co with
          | error er => rw [hcp] at h; exact Except.noConfusion h
          | ok price =>
            rw [hcp] at h
            dsimp only at h
            have h' := (Except.ok.injEq _ _).mp h
            injection h' with hdb hb
            exact ⟨⟨nid, guestId, rt, ci, co, price, .pending, none⟩, rfl,
              by rw [← hdb]⟩
  · rw [if_neg hg] at h; exact Except.noConfusion h

lemma cancelBooking_ok_bookings {db : DB} {today bid : Nat} {db' : DB}
    {bb : BookingRec} (h : cancelBooking db today bid = .ok (db', bb)) :
    db'.bookings = updateById db.bookings bid (setStatus .cancelled) := by
  unfold cancelBooking at h
  cases hfb : bookingById db bid with
  | none => rw [hfb] at h; exact Except.noConfusion h
  | some b0 =>
    rw [hfb] at h
    dsimp only at h
    by_cases h1 : b0.status = .checkedOut ∨ b0.status = .cancelled
    · rw [if_pos h1] at h; exact Except.noConfusion h
    rw [if_neg h1] at h
    by_cases h2 : b0.checkIn ≤ today
    · rw [if_pos h2] at h; exact Except.noConfusion h
    rw [if_neg h2] at h
    have h' := (Except.ok.injEq _ _).mp h
    injection h' with hdb hb
    rw [← hdb]

lemma checkOutBooking_ok_bookings {db : DB} {bid : Nat} {db' : DB}
    {bb : BookingRec} (h : checkOutBooking db bid = .ok (db', bb)) :
    db'.bookings = updateById db.bookings bid (setStatus .checkedOut) := by
  unfold checkOutBooking at h
  cases hfb : bookingById db bid with
  | none => rw [hfb] at h; exact Except.noConfusion h
  | some b0 =>
    rw [hfb] at h
    dsimp only at h
    by_cases h1 : b0.status = .checkedIn
    · rw [if_pos h1] at h
      have h' := (Except.ok.injEq _ _).mp h
      injection h' with hdb hb
      rw [← hdb]
    · rw [if_neg h1] at h; exact Except.noConfusion h

lemma checkInBooking_ok_inv {db : DB} {today bid : Nat} {uid : Option Nat}
    {db' : DB} {bb : BookingRec}
    (h : checkInBooking db today bid uid = .ok (db', bb)) :
    ∃ b0 g, bookingById db bid = some b0 ∧ b0.status = .confirmed ∧
      (∀ x : BookingRec, (g x).id = x.id ∧ (g x).status = .checkedIn) ∧
      db'.bookings = updateById db.bookings bid g := by
  unfold checkInBooking at h
  cases hfb : bookingById db bid with
  | none => rw [hfb] at h; exact Except.noConfusion h
  | some b0 =>
    rw [hfb] at h
    dsimp only at h
    by_cases h1 : b0.status = .confirmed
    · rw [if_pos h1] at h
      by_cases h2 : today < b0.checkIn
      · rw [if_pos h2] at h; exact Except.noConfusion h
      rw [if_neg h2] at h
      cases uid with
      | none =>
        dsimp only at h
        have h' := (Except.ok.injEq _ _).mp h
        injection h' with hdb hb
        exact ⟨b0, setStatus .checkedIn, rfl, h1, fun x => ⟨rfl, rfl⟩,
          by rw [← hdb]⟩
      | some u =>
        dsimp only at h
        cases hu : db.roomUnits.find? (fun x =>
            decide (x.id = u ∧ x.roomTypeId = b0.roomTypeId ∧
              x.status = .available)) with
        | none => rw [hu] at h; exact Except.noConfusion h
        | some u0 =>
          rw [hu] at h
          dsimp only at h
          have h' := (Except.ok.injEq _ _).mp h
          injection h' with hdb hb
          exact ⟨b0, assignUnit u, rfl, h1, fun x => ⟨rfl, rfl⟩,
            by rw [← hdb]⟩
    · rw [if_neg h1] at h; exact Except.noConfusion h

lemma updateBooking_ok_bookings {db : DB} {today bid : Nat}
    {ci co nrt : Option Nat} {db' : DB} {bb : BookingRec}
    (h : updateBooking db today bid ci co nrt = .ok (db', bb)) :
    db'.bookings = db.bookings ∨
    ∃ g : BookingRec → BookingRec,
      (∀ x, (g x).id = x.id ∧ (g x).status = x.status) ∧
      db'.bookings = updateById db.bookings bid g := by
  unfold updateBooking at h
  cases hfb : bookingById db bid with
  | none => rw [hfb] at h; exact Except.noConfusion h
  | some b =>
    rw [hfb] at h
    dsimp only at h
    by_cases hst : b.status = .pending
    · rw [if_pos hst] at h
      by_cases hpres : ci.isSome ∨ co.isSome ∨ nrt.isSome
      · rw [if_pos hpres] at h
        cases hv : validateBookingDates today (ci.getD b.checkIn)
            (co.getD b.checkOut) with
        | error er => rw [hv] at h; exact Except.noConfusion h
        | ok p =>
          obtain rfl := validateBookingDates_ok hv
          rw [hv] at h
          dsimp only at h
          cases hca : checkRoomAvailability db (nrt.getD b.roomTypeId)
              (ci.getD b.checkIn) (co.getD b.checkOut) with
          | error er => rw [hca] at h; exact Except.noConfusion h
          | ok m =>
            rw [hca] at h
            dsimp only at h
            cases hcp : calculateBookingPrice db (nrt.getD b.roomTypeId)
                (ci.getD b.checkIn) (co.getD b.checkOut) with
            | error er => rw [hcp] at h; exact Except.noConfusion h
            | ok price =>
              rw [hcp] at h
              dsimp only at h
              have h' := (Except.ok.injEq _ _).mp h
              injection h' with hdb hb
              right
              exact ⟨fun x =>
                  { x with checkIn := ci.getD b.checkIn,
                           checkOut := co.getD b.checkOut,
                           roomTypeId := nrt.getD b.roomTypeId,
                           totalPrice := price },
                fun x => ⟨rfl, rfl⟩, by rw [← hdb]⟩
      · rw [if_neg hpres] at h
        have h' := (Except.ok.injEq _ _).mp h
        injection h' with hdb hb
        left
        rw [← hdb]
    · rw [if_neg hst] at h; exact Except.noConfusion h

/-- C6: over every committed lifecycle transition of the system (`Step`
covers all operations in the repository that write booking rows), a booking
can become CONFIRMED only if it was already CONFIRMED before the step or it
was PENDING with an associated SUCCESS payment (so `confirmBooking` fails
otherwise, leaving every status unchanged — an error commits nothing), and
a booking can be CHECKED_IN after a step only if it was already CHECKED_IN
or was CONFIRMED before it: no booking reaches CHECKED_IN without passing
through CONFIRMED, and none reaches CONFIRMED without a SUCCESS payment. -/
theorem booking_status_transitions (db db' : DB) (hstep : Step db db')
    (i : Nat) (b' : BookingRec) (hfind : bookingById db' i = some b') :
    (b'.status = .confirmed →
      ∃ b, bookingById db i = some b ∧
        (b.status = .confirmed ∨ (b.status = .pending ∧ paymentSuccess db i))) ∧
    (b'.status = .checkedIn →
      ∃ b, bookingById db i = some b ∧
        (b.status = .checkedIn ∨ b.status = .confirmed)) := by
  cases hstep with
  | create =>
    rename_i hop
    obtain ⟨nb, hnbst, hbk⟩ := createBooking_ok_bookings hop
    unfold bookingById at hfind ⊢
    rw [hbk, List.find?_append] at hfind
    cases hold : db.bookings.find? (fun b => b.id == i) with
    | some b =>
      rw [hold] at hfind
      simp only [Option.or] at hfind
      injection hfind with hb'
      exact ⟨fun hc => ⟨b, rfl, Or.inl (by rw [hb']; exact hc)⟩,
        fun hc => ⟨b, rfl, Or.inl (by rw [hb']; exact hc)⟩⟩
    | none =>
      rw [hold, Option.none_or] at hfind
      by_cases hnb : (nb.id == i) = true
      · rw [@List.find?_cons_of_pos _ (fun b => b.id == i) nb [] hnb] at hfind
        injection hfind with hb'
        constructor
        · intro hc
          rw [← hb', hnbst] at hc
          exact BStatus.noConfusion hc
        · intro hc
          rw [← hb', hnbst] at hc
          exact BStatus.noConfusion hc
      · rw [@List.find?_cons_of_neg _ (fun b => b.id == i) nb [] hnb,
          List.find?_nil] at hfind
        exact Option.noConfusion hfind
  | confirm =>
    rename_i bid bb hop
    obtain ⟨b0, hb0, hst, hpay, hbk⟩ := confirmBooking_ok_inv hop
    obtain ⟨b, hb, hcase⟩ := status_trace_of_update
      (fun x => (rfl : (setStatus BStatus.confirmed x).id = x.id)) hbk hfind
    rcases hcase with hbe | ⟨hbe, hbbid, hie⟩
    · exact ⟨fun hc => ⟨b, hb, Or.inl (by rw [← hbe]; exact hc)⟩,
        fun hc => ⟨b, hb, Or.inl (by rw [← hbe]; exact hc)⟩⟩
    · have h1 : bookingById db i = some b0 := by rw [hie]; exact hb0
      rw [h1] at hb
      injection hb with hbb
      constructor
      · intro _
        refine ⟨b0, h1, Or.inr ⟨hst, ?_⟩⟩
        have hid : b0.id = i := by rw [hbb, hbbid, hie]
        rw [← hid]
        exact hpay
      · intro hc
        rw [hbe] at hc
        simp [setStatus] at hc
  | cancel =>
    rename_i hop
    have hbk := cancelBooking_ok_bookings hop
    obtain ⟨b, hb, hcase⟩ := status_trace_of_update
      (fun x => (rfl : (setStatus BStatus.cancelled x).id = x.id)) hbk hfind
    rcases hcase with hbe | ⟨hbe, hbbid, hie⟩
    · exact ⟨fun hc => ⟨b, hb, Or.inl (by rw [← hbe]; exact hc)⟩,
        fun hc => ⟨b, hb, Or.inl (by rw [← hbe]; exact hc)⟩⟩
    · constructor
      · intro hc
        rw [hbe] at hc
        simp [setStatus] at hc
      · intro hc
        rw [hbe] at hc
        simp [setStatus] at hc
  | checkin =>
    rename_i hop
    obtain ⟨b0, g, hb0, hst, hgprop, hbk⟩ := checkInBooking_ok_inv hop
    obtain ⟨b, hb, hcase⟩ :=
      status_trace_of_update (fun x => (hgprop x).1) hbk hfind
    rcases hcase with hbe | ⟨hbe, hbbid, hie⟩
    · exact ⟨fun hc => ⟨b, hb, Or.inl (by rw [← hbe]; exact hc)⟩,
        fun hc => ⟨b, hb, Or.inl (by rw [← hbe]; exact hc)⟩⟩
    · have h1 : bookingById db i = some b0 := by rw [hie]; exact hb0
      rw [h1] at hb
      injection hb with hbb
      constructor
      · intro hc
        rw [hbe, (hgprop b).2] at hc
        exact BStatus.noConfusion hc
      · intro _
        refine ⟨b0, h1, Or.inr hst⟩
  | checkout =>
    rename_i hop
    have hbk := checkOutBooking_ok_bookings hop
    obtain ⟨b, hb, hcase⟩ := status_trace_of_update
      (fun x => (rfl : (setStatus BStatus.checkedOut x).id = x.id)) hbk hfind
    rcases hcase with hbe | ⟨hbe, hbbid, hie⟩
    · exact ⟨fun hc => ⟨b, hb, Or.inl (by rw [← hbe]; exact hc)⟩,
        fun hc => ⟨b, hb, Or.inl (by rw [← hbe]; exact hc)⟩⟩
    · constructor
      · intro hc
        rw [hbe] at hc
        simp [setStatus] at hc
      · intro hc
        rw [hbe] at hc
        simp [setStatus] at hc
  | modify =>
    rename_i hop
    rcases updateBooking_ok_bookings hop with hsame | ⟨g, hgprop, hbk⟩
    · unfold bookingById at hfind ⊢
      rw [hsame] at hfind
      exact ⟨fun hc => ⟨b', hfind, Or.inl hc⟩,
        fun hc => ⟨b', hfind, Or.inl hc⟩⟩
    · obtain ⟨b, hb, hcase⟩ :=
        status_trace_of_update (fun x => (hgprop x).1) hbk hfind
      rcases hcase with hbe | ⟨hbe, hbbid, hie⟩
      · exact ⟨fun hc => ⟨b, hb, Or.inl (by rw [← hbe]; exact hc)⟩,
          fun hc => ⟨b, hb, Or.inl (by rw [← hbe]; exact hc)⟩⟩
      · constructor
        · intro hc
          rw [hbe, (hgprop b).2] at hc
          exact ⟨b, hb, Or.inl hc⟩
        · intro hc
          rw [hbe, (hgprop b).2] at hc
          exact ⟨b, hb, Or.inl hc⟩

/-- C6 witness: confirming the PENDING booking of `dbConf` (which has a
SUCCESS payment) is a `Step`, and the theorem recovers the PENDING status
with the SUCCESS payment from the CONFIRMED successor state. -/
theorem booking_status_transitions_witness :
    ∃ b, bookingById dbConf 1 = some b ∧
      (b.status = .confirmed ∨
        (b.status = .pending ∧ paymentSuccess dbConf 1)) :=
  (booking_status_transitions dbConf dbConfAfter
      (Step.confirm dbConf 1 dbConfAfter ⟨1, 1, 1, 5, 6, 100, .confirmed, none⟩
        (by decide))
      1 ⟨1, 1, 1, 5, 6, 100, .confirmed, none⟩ (by decide)).1 (by decide)

/-! ## C8: the nightly price sum -/

lemma foldl_add_eq_sum (f : Nat → ℚ) (l : List Nat) :
    ∀ a : ℚ, l.foldl (fun acc d => acc + f d) a = a + (l.map f).sum := by
  induction l with
  | nil => intro a; simp
  | cons x xs ih =>
    intro a
    rw [List.foldl_cons, ih (a + f x), List.map_cons, List.sum_cons]
    ring

lemma buildRateMap_aux (l : List DailyRateRec) :
    ∀ (m : Nat → Option ℚ) (d : Nat),
      (l.foldl (fun m r => fun d => if d = r.date then some r.price else m d) m) d =
        (match l.reverse.find? (fun r => r.date == d) with
          | some r => some r.price
          | none => m d) := by
  induction l with
  | nil => intro m d; rfl
  | cons x xs ih =>
    intro m d
    rw [List.foldl_cons, ih, List.reverse_cons, List.find?_append]
    cases hf : xs.reverse.find? (fun r => r.date == d) with
    | some r => rfl
    | none =>
      dsimp only
      by_cases hd : d = x.date
      · have hdx : (x.date == d) = true := by simpa using hd.symm
        rw [if_pos hd, @List.find?_cons_of_pos _ (fun r => r.date == d) x [] hdx]
        rfl
      · have hdx : ¬((x.date == d) = true) := by
          simpa using fun hh => hd hh.symm
        rw [if_neg hd, @List.find?_cons_of_neg _ (fun r => r.date == d) x [] hdx,
          List.find?_nil]
        rfl

lemma find?_reverse_of_unique {α : Type} (q : α → Bool) :
    ∀ l : List α, l.Pairwise (fun a b => ¬(q a = true ∧ q b = true)) →
      l.reverse.find? q = l.find? q := by
  intro l
  induction l with
  | nil => intro _; rfl
  | cons x xs ih =>
    intro hp
    obtain ⟨hx, hxs⟩ := List.pairwise_cons.mp hp
    rw [List.reverse_cons, List.find?_append, ih hxs]
    by_cases hq : q x = true
    · cases hfx : xs.find? q with
      | none =>
        rw [Option.none_or, @List.find?_cons_of_pos _ q x xs hq,
          @List.find?_cons_of_pos _ q x [] hq]
      | some r =>
        exact absurd ⟨hq, List.find?_some hfx⟩
          (hx r (List.mem_of_find?_eq_some hfx))
    · rw [@List.find?_cons_of_neg _ q x xs hq,
        @List.find?_cons_of_neg _ q x [] hq, List.find?_nil]
      cases hfx : xs.find? q with
      | none => rfl
      | some r => rfl

lemma find?_filter {α : Type} (p q : α → Bool) :
    ∀ l : List α, (l.filter p).find? q = l.find? (fun a => p a && q a) := by
  intro l
  induction l with
  | nil => rfl
  | cons x xs ih =>
    by_cases hp : p x = true
    · rw [List.filter_cons_of_pos hp]
      by_cases hq : q x = true
      · rw [@List.find?_cons_of_pos _ q x _ hq,
          @List.find?_cons_of_pos _ (fun a => p a && q a) x xs (by simp [hp, hq])]
      · rw [@List.find?_cons_of_neg _ q x _ hq,
          @List.find?_cons_of_neg _ (fun a => p a && q a) x xs (by simp [hp, hq]),
          ih]
    · rw [List.filter_cons_of_neg hp,
        @List.find?_cons_of_neg _ (fun a => p a && q a) x xs (by simp [hp]), ih]

lemma find?_ext {α : Type} (p q : α → Bool) (hpq : ∀ x, p x = q x) :
    ∀ l : List α, l.find? p = l.find? q := by
  intro l
  induction l with
  | nil => rfl
  | cons x xs ih =>
    by_cases h : p x = true
    · rw [@List.find?_cons_of_pos _ p x xs h,
        @List.find?_cons_of_pos _ q x xs (by rw [← hpq]; exact h)]
    · rw [@List.find?_cons_of_neg _ p x xs h,
        @List.find?_cons_of_neg _ q x xs (by rw [← hpq]; exact h), ih]

lemma rateMap_eq_override (db : DB) (rt s e d : Nat)
    (hkeys : db.dailyRates.Pairwise
      (fun a b => ¬(a.roomTypeId = b.roomTypeId ∧ a.date = b.date)))
    (hd1 : s ≤ d) (hd2 : d < e) :
    buildRateMap (ratesInRange db rt s e) d =
      (db.dailyRates.find?
        (fun r => decide (r.roomTypeId = rt ∧ r.date = d))).map (·.price) := by
  have hpw : (ratesInRange db rt s e).Pairwise
      (fun a b => ¬((a.date == d) = true ∧ (b.date == d) = true)) := by
    have hsub := List.filter_sublist
      (p := fun r => decide (r.roomTypeId = rt ∧ s ≤ r.date ∧ r.date < e))
      db.dailyRates
    have hpw0 := List.Pairwise.sublist hsub hkeys
    refine List.Pairwise.imp_of_mem ?_ hpw0
    intro a b ha hb hR hq
    have ha' := (List.mem_filter.mp ha).2
    have hb' := (List.mem_filter.mp hb).2
    simp only [decide_eq_true_eq] at ha' hb'
    have hqa : a.date = d := by simpa using hq.1
    have hqb : b.date = d := by simpa using hq.2
    exact hR ⟨by rw [ha'.1, hb'.1], by rw [hqa, hqb]⟩
  unfold buildRateMap
  rw [buildRateMap_aux]
  have hrw : (ratesInRange db rt s e).reverse.find? (fun r => r.date == d) =
      db.dailyRates.find? (fun r => decide (r.roomTypeId = rt ∧ r.date = d)) := by
    rw [find?_reverse_of_unique _ _ hpw]
    unfold ratesInRange
    rw [find?_filter]
    apply find?_ext
    intro r
    by_cases h1 : r.date = d
    · by_cases h2 : r.roomTypeId = rt <;> simp [h1, h2, hd1, hd2]
    · simp [h1]
  rw [hrw]
  cases hfr : db.dailyRates.find?
      (fun r => decide (r.roomTypeId = rt ∧ r.date = d)) with
  | some r => rfl
  | none => rfl

lemma isCents_add {x y : ℚ} (hx : isCents x) (hy : isCents y) :
    isCents (x + y) := by
  obtain ⟨n, rfl⟩ := hx
  obtain ⟨m, rfl⟩ := hy
  exact ⟨n + m, by push_cast; ring⟩

lemma isCents_sum : ∀ l : List ℚ, (∀ x ∈ l, isCents x) → isCents l.sum := by
  intro l
  induction l with
  | nil => intro _; exact ⟨0, by norm_num⟩
  | cons x xs ih =>
    intro h
    rw [List.sum_cons]
    exact isCents_add (h x (by simp)) (ih (fun y hy => h y (by simp [hy])))

lemma round2_cents {x : ℚ} (hx : isCents x) : round2 x = x := by
  obtain ⟨n, rfl⟩ := hx
  unfold round2
  have h1 : (n : ℚ) / 100 * 100 = (n : ℚ) := by field_simp
  rw [h1]
  have h2 : ⌊(n : ℚ) + 1 / 2⌋ = n := by
    rw [Int.floor_eq_iff]
    constructor <;> norm_num
  rw [h2]

/-- C8: when the room type exists (not soft-deleted), the daily-rate table
has unique (roomTypeId, date) keys (the schema unique constraint), and all
prices are whole cents, the computed total equals the sum over each night
of the half-open range of the override price when one exists for that date
and the base price otherwise. -/
theorem calculateBookingPrice_is_nightly_sum (db : DB) (rt s e : Nat)
    (t : RoomTypeRec) (hrt : findRoomType db rt = some t)
    (hkeys : db.dailyRates.Pairwise
      (fun a b => ¬(a.roomTypeId = b.roomTypeId ∧ a.date = b.date)))
    (hbase : isCents t.basePrice)
    (hrates : ∀ r ∈ db.dailyRates, isCents r.price) :
    calculateBookingPrice db rt s e =
      .ok (((nightsList s e).map (specNightPrice db rt t.basePrice)).sum) := by
  have hnight : ∀ d ∈ nightsList s e,
      (buildRateMap (ratesInRange db rt s e) d).getD t.basePrice =
        specNightPrice db rt t.basePrice d := by
    intro d hd
    have hb := mem_nightsList.mp hd
    rw [rateMap_eq_override db rt s e d hkeys hb.1 hb.2]
    unfold specNightPrice
    cases hfr : db.dailyRates.find?
        (fun r => decide (r.roomTypeId = rt ∧ r.date = d)) with
    | some r => rfl
    | none => rfl
  have hcents : ∀ x ∈ (nightsList s e).map (specNightPrice db rt t.basePrice),
      isCents x := by
    intro x hx
    rw [List.mem_map] at hx
    obtain ⟨d, hd, rfl⟩ := hx
    unfold specNightPrice
    cases hfr : db.dailyRates.find?
        (fun r => decide (r.roomTypeId = rt ∧ r.date = d)) with
    | some r =>
      dsimp only
      exact hrates r (List.mem_of_find?_eq_some hfr)
    | none =>
      dsimp only
      exact hbase
  unfold calculateBookingPrice
  rw [hrt]
  dsimp only
  congr 1
  rw [foldl_add_eq_sum
    (fun d => (buildRateMap (ratesInRange db rt s e) d).getD t.basePrice)
    (nightsList s e) 0, zero_add, List.map_congr_left hnight]
  exact round2_cents (isCents_sum _ hcents)

/-- C8 witness: the spec scenario — two nights at base 100 with one 150
override on the second night yields 250. -/
theorem calculateBookingPrice_is_nightly_sum_witness :
    calculateBookingPrice dbPrice 1 1 3 = .ok 250 := by
  have h := calculateBookingPrice_is_nightly_sum dbPrice 1 1 3 ⟨1, 100, none⟩
    (by decide) (by decide) ⟨10000, by norm_num⟩ ?hr
  case hr =>
    intro r hr
    have : r = ⟨1, 2, 150⟩ := by simpa [dbPrice] using hr
    rw [this]
    exact ⟨15000, by norm_num⟩
  rw [h]
  have hn : nightsList 1 3 = [1, 2] := by decide
  have h1 : specNightPrice dbPrice 1 100 1 = 100 := rfl
  have h2 : specNightPrice dbPrice 1 100 2 = 150 := rfl
  rw [hn, List.map_cons, List.map_cons, List.map_nil, h1, h2,
    List.sum_cons, List.sum_cons, List.sum_nil]
  norm_num

end HotelBooking
